import Mathlib

/-!
Verification of the natural-language specification of the azure-sdk-usage-agent
repository against a shallow embedding of its Python sources.

The embedding models strings as lists of characters (type Str below) so that
every operation of the source (lower-casing, trimming, substring search,
splitting) is an executable Lean function that a concrete input can evaluate.
Each section names the source file and function it embeds.
-/

namespace SdkUsage

/-- Strings of the embedded program, as character lists. -/
abbrev Str := List Char

/-- Coerce a Lean string literal into the embedding's string type. -/
def str (s : String) : Str := s.data

/-- Python str.lower() (ASCII view, as used by the sources). -/
def lowerS (s : Str) : Str := s.map Char.toLower

/-- Whitespace test used by Python str.strip(). -/
def wsB (c : Char) : Bool := c.isWhitespace

/-- Leading-whitespace removal. -/
def trimL (s : Str) : Str := s.dropWhile wsB

/-- Trailing-whitespace removal. -/
def trimR (s : Str) : Str := (s.reverse.dropWhile wsB).reverse

/-- Python str.strip(). -/
def trimBoth (s : Str) : Str := trimR (trimL s)

/-- Python substring containment: hasSub n h decides (n in h).
The empty needle is contained in every string, as in Python. -/
def hasSub (needle : Str) : Str → Bool
  | [] => needle.isEmpty
  | c :: rest => needle.isPrefixOf (c :: rest) || hasSub needle rest

theorem hasSub_iff_exists {n h : Str} :
    hasSub n h = true ↔ ∃ a b, h = a ++ n ++ b := by
  induction h with
  | nil =>
    simp only [hasSub, List.isEmpty_iff]
    constructor
    · intro hn; exact ⟨[], [], by simp [hn]⟩
    · rintro ⟨a, b, hab⟩
      rcases List.append_eq_nil.mp hab.symm with ⟨h1, h2⟩
      exact (List.append_eq_nil.mp h1).2
  | cons c rest ih =>
    simp only [hasSub, Bool.or_eq_true, ih, List.isPrefixOf_iff_prefix]
    constructor
    · rintro (⟨t, ht⟩ | ⟨a, b, hab⟩)
      · exact ⟨[], t, by simp [ht]⟩
      · exact ⟨c :: a, b, by simp [hab]⟩
    · rintro ⟨a, b, hab⟩
      cases a with
      | nil => exact Or.inl ⟨b, by simpa using hab.symm⟩
      | cons x a' =>
        simp only [List.cons_append, List.cons.injEq] at hab
        exact Or.inr ⟨a', b, hab.2⟩

theorem hasSub_of_append {n a b : Str} : hasSub n (a ++ n ++ b) = true :=
  hasSub_iff_exists.mpr ⟨a, b, rfl⟩

/-- The trimmed string sits inside the original, surrounded by whitespace. -/
theorem trimBoth_is_mid (l : Str) : ∃ p s, l = p ++ trimBoth l ++ s := by
  have h1 : l = l.takeWhile wsB ++ trimL l := (List.takeWhile_append_dropWhile wsB l).symm
  have h2 : trimL l = trimBoth l ++ ((trimL l).reverse.takeWhile wsB).reverse := by
    conv_lhs => rw [← List.reverse_reverse (trimL l),
      ← List.takeWhile_append_dropWhile wsB (trimL l).reverse]
    rw [List.reverse_append]
    rfl
  refine ⟨l.takeWhile wsB, ((trimL l).reverse.takeWhile wsB).reverse, ?_⟩
  conv_lhs => rw [h1, h2]
  rw [List.append_assoc]

/-- A needle found in the trimmed string is found in the original. -/
theorem hasSub_of_trimBoth {n l : Str} (h : hasSub n (trimBoth l) = true) :
    hasSub n l = true := by
  rcases hasSub_iff_exists.mp h with ⟨a, b, hab⟩
  rcases trimBoth_is_mid l with ⟨p, s, hl⟩
  exact hasSub_iff_exists.mpr ⟨p ++ a, b ++ s, by rw [hl, hab]; simp⟩

/-- A non-empty, whitespace-free needle found in a string survives
left-trimming of that string. -/
theorem hasSub_trimL {n l : Str} (hne : n ≠ []) (hws : ∀ c ∈ n, wsB c = false)
    (h : hasSub n l = true) : hasSub n (trimL l) = true := by
  rcases hasSub_iff_exists.mp h with ⟨a, b, hab⟩
  subst hab
  unfold trimL
  rw [List.append_assoc, List.dropWhile_append]
  by_cases he : (a.dropWhile wsB).isEmpty = true
  · simp only [he, if_pos]
    cases n with
    | nil => exact absurd rfl hne
    | cons c n' =>
      rw [(by simp : (c :: n') ++ b = c :: (n' ++ b)), List.dropWhile_cons_of_neg]
      · exact hasSub_iff_exists.mpr ⟨[], b, by simp⟩
      · simp [hws c (by simp)]
  · simp only [he, if_neg, Bool.false_eq_true, not_false_iff]
    exact hasSub_iff_exists.mpr ⟨a.dropWhile wsB, b, by simp⟩

/-- A non-empty, whitespace-free needle found in a string survives
right-trimming of that string. -/
theorem hasSub_trimR {n l : Str} (hne : n ≠ []) (hws : ∀ c ∈ n, wsB c = false)
    (h : hasSub n l = true) : hasSub n (trimR l) = true := by
  rcases hasSub_iff_exists.mp h with ⟨a, b, hab⟩
  subst hab
  unfold trimR
  rw [List.reverse_append, List.reverse_append, List.dropWhile_append]
  by_cases he : (b.reverse.dropWhile wsB).isEmpty = true
  · simp only [he, if_pos]
    rcases List.exists_cons_of_ne_nil (by simpa using hne : n.reverse ≠ []) with ⟨c, t, hct⟩
    have hcn : c ∈ n := by
      have hcr : c ∈ n.reverse := by rw [hct]; simp
      simpa using hcr
    have hd : List.dropWhile wsB (n.reverse ++ a.reverse) = n.reverse ++ a.reverse := by
      rw [hct, List.cons_append, List.dropWhile_cons_of_neg (by simp [hws c hcn])]
    rw [hd]
    simp only [List.reverse_append, List.reverse_reverse]
    exact hasSub_iff_exists.mpr ⟨a, [], by simp⟩
  · simp only [he, if_neg, Bool.false_eq_true, not_false_iff]
    refine hasSub_iff_exists.mpr ⟨a, (b.reverse.dropWhile wsB).reverse, ?_⟩
    simp [List.reverse_append]

/-- Trimming does not change whether a non-empty whitespace-free keyword
occurs in a string. -/
theorem hasSub_trimBoth_iff {n l : Str} (hne : n ≠ []) (hws : ∀ c ∈ n, wsB c = false) :
    hasSub n (trimBoth l) = hasSub n l := by
  by_cases h : hasSub n l = true
  · rw [h, trimBoth, hasSub_trimR hne hws (hasSub_trimL hne hws h)]
  · have h2 : hasSub n (trimBoth l) = false :=
      Bool.eq_false_iff.mpr fun hc => h (hasSub_of_trimBoth hc)
    rw [h2, Bool.eq_false_iff.mpr h]

end SdkUsage

namespace SdkUsage

/-! ## SQL client results
Embedding of src/mcp-sqlServer/src/sql_client.py (MSSQLMSIClient._execute_query_sync)
and the result formatting of src/mcp-sqlServer/src/mcp_tools.py (execute_custom_sql). -/

/-- A database cell value as seen by the Python driver. -/
inductive SqlValue where
  | null
  | intV (n : Int)
  | strV (s : Str)
  | boolV (b : Bool)
  | timeV (iso : Str)
  | bytesV (decoded : Str)
  | otherV (rendered : Str)
deriving DecidableEq

/-- Value conversion in _execute_query_sync: datetimes become their ISO string,
bytes are decoded, other non-primitive values are stringified. -/
def convVal : SqlValue → SqlValue
  | .timeV s => .strV s
  | .bytesV s => .strV s
  | .otherV s => .strV s
  | v => v

/-- Decimal rendering of a natural number. -/
def natStr (n : Nat) : Str := (toString n).data

/-- columns[i] if in range, else the synthetic name column_i. -/
def columnName (cols : List Str) (i : Nat) : Str :=
  match cols.get? i with
  | some c => c
  | none => str "column_" ++ natStr i

/-- Raw table shape fetched from the cursor. -/
structure RawTable where
  columns : List Str
  rows : List (List SqlValue)

/-- The dict produced for one fetched row. -/
def rowToDict (cols : List Str) (row : List SqlValue) : List (Str × SqlValue) :=
  row.enum.map (fun p => (columnName cols p.1, convVal p.2))

/-- The uniform result dict of _execute_query_sync. -/
structure QueryResult where
  columns : List Str
  rows : List (List (Str × SqlValue))
  rowCount : Nat
  status : Str
  errMsg : Option Str

/-- Model of _execute_query_sync: success converts every fetched row and reports
row_count as the length of the converted list; the error branch reports
empty rows and row_count 0. -/
def executeQuerySync : Except Str RawTable → QueryResult
  | .error e =>
      { columns := [], rows := [], rowCount := 0, status := str "error", errMsg := some e }
  | .ok t =>
      let rs := t.rows.map (rowToDict t.columns)
      { columns := t.columns, rows := rs, rowCount := rs.length,
        status := str "success", errMsg := none }

/-! ## Statement-safety check
Embedding of executeCustomSQL (src/mcp-sqlServer/sqlQuery.py) and
MCPTools.execute_custom_sql (src/mcp-sqlServer/src/mcp_tools.py). -/

/-- The denylist checked by the safety filter, in source order. -/
def dangerousKeywords : List Str :=
  [str "drop", str "delete", str "insert", str "update", str "create",
   str "alter", str "truncate", str "exec", str "execute"]

/-- The two-stage guard of execute_custom_sql: sql.lower().strip() must start
with select, and must contain no denylisted keyword. Returns the error
message produced, or none if the statement is allowed to execute. -/
def customSqlGuard (sql : Str) : Option Str :=
  let l := trimBoth (lowerS sql)
  if (str "select").isPrefixOf l then
    if dangerousKeywords.any (fun k => hasSub k l) then
      some (str "Query contains prohibited operations")
    else none
  else some (str "Only SELECT queries are allowed")

/-- Outcome of execute_custom_sql. -/
inductive CustomSqlResult where
  | errorRes (msg : Str)
  | okRes (data : List (List (Str × SqlValue))) (rowCount : Nat)

/-- execute_custom_sql: guard first; only an allowed statement reaches the
executor ex, whose result dict is then reformatted. -/
def executeCustomSQL (ex : Str → QueryResult) (sql : Str) : CustomSqlResult :=
  match customSqlGuard sql with
  | some e => .errorRes e
  | none =>
      let qr := ex sql
      if qr.status = str "error" then
        .errorRes (str "SQL execution failed: " ++ (qr.errMsg.getD (str "Unknown error")))
      else .okRes qr.rows qr.rows.length

/-- The claim's acceptance condition, written from the spec: starts with
SELECT after trimming (case-insensitively) and contains none of the
denylisted keywords anywhere in the (untrimmed) statement. -/
def statementSafeSpec (sql : Str) : Prop :=
  (str "select").isPrefixOf (trimBoth (lowerS sql)) = true ∧
  ∀ k ∈ dangerousKeywords, hasSub k (lowerS sql) = false

/-- row_count consistency predicate for a custom-SQL outcome. -/
def customRowCountOk : CustomSqlResult → Prop
  | .errorRes _ => True
  | .okRes data n => n = data.length

end SdkUsage

namespace SdkUsage

theorem dangerousKeywords_wf :
    ∀ k ∈ dangerousKeywords, k ≠ [] ∧ ∀ c ∈ k, wsB c = false := by decide

/-- C1: the statement-safety check accepts a SQL string iff it starts with
SELECT after trimming (case-insensitively) and contains none of the
denylisted keywords anywhere; the two SELECT examples are accepted, and the
injection example is rejected with an error result while the executor is
never consulted. -/
theorem C1_statement_safety :
    (∀ sql : Str, customSqlGuard sql = none ↔ statementSafeSpec sql)
    ∧ customSqlGuard (str "SELECT * FROM t") = none
    ∧ customSqlGuard (str "Select * from t") = none
    ∧ customSqlGuard (str "select * from t; DROP TABLE t")
        = some (str "Query contains prohibited operations")
    ∧ (∀ ex1 ex2 : Str → QueryResult,
        executeCustomSQL ex1 (str "select * from t; DROP TABLE t")
          = executeCustomSQL ex2 (str "select * from t; DROP TABLE t")
        ∧ executeCustomSQL ex1 (str "select * from t; DROP TABLE t")
          = CustomSqlResult.errorRes (str "Query contains prohibited operations")) := by
  refine ⟨?_, by decide, by decide, by decide, ?_⟩
  · intro sql
    unfold customSqlGuard statementSafeSpec
    by_cases hp : (str "select").isPrefixOf (trimBoth (lowerS sql)) = true
    · rw [if_pos hp]
      by_cases hd : dangerousKeywords.any (fun k => hasSub k (trimBoth (lowerS sql))) = true
      · rw [if_pos hd]
        constructor
        · intro hc; exact absurd hc (by simp)
        · rintro ⟨-, hall⟩
          rcases List.any_eq_true.mp hd with ⟨k, hk, hks⟩
          have hwf := dangerousKeywords_wf k hk
          rw [hasSub_trimBoth_iff hwf.1 hwf.2] at hks
          rw [hall k hk] at hks
          exact absurd hks (by simp)
      · rw [if_neg hd]
        constructor
        · intro _
          refine ⟨hp, fun k hk => ?_⟩
          have hwf := dangerousKeywords_wf k hk
          rw [← hasSub_trimBoth_iff hwf.1 hwf.2]
          by_contra hc
          have hb : hasSub k (trimBoth (lowerS sql)) = true := by
            revert hc; cases hasSub k (trimBoth (lowerS sql)) <;> simp
          exact hd (List.any_eq_true.mpr ⟨k, hk, hb⟩)
        · intro _; rfl
    · rw [if_neg hp]
      constructor
      · intro hc; exact absurd hc (by simp)
      · rintro ⟨hsel, -⟩; exact absurd hsel hp
  · intro ex1 ex2
    constructor <;> rfl

/-- C10: in every result of the query-execution layer, success or error, the
reported row_count equals the number of row dictionaries actually returned
(0 on the error branch, whose rows list is empty); the custom-SQL formatting
layer preserves this. -/
theorem C10_row_count_invariant :
    (∀ inp : Except Str RawTable,
      (executeQuerySync inp).rowCount = (executeQuerySync inp).rows.length)
    ∧ (∀ (ex : Str → QueryResult) (sql : Str),
        customRowCountOk (executeCustomSQL ex sql)) := by
  constructor
  · intro inp
    cases inp with
    | error e => rfl
    | ok t => rfl
  · intro ex sql
    unfold executeCustomSQL
    cases customSqlGuard sql with
    | some e => exact trivial
    | none =>
      by_cases hs : (ex sql).status = str "error"
      · simp [hs, customRowCountOk]
      · simp [hs, customRowCountOk]

end SdkUsage

namespace SdkUsage

/-! ## Two-strategy REST execution client
Embedding of src/mcp-sqlServer/mssql_query_server.py: MSSQLRestClient
(execute_query_via_rest, _try_sql_database_api, _try_management_api). -/

/-- What one transport strategy experiences when invoked. -/
inductive HttpAttempt where
  | resp (code : Nat) (body : Str)
  | connectErr (msg : Str)
  | raised (msg : Str)

/-- Model of _try_sql_database_api: every failure mode, including HTTP 401/403, is
swallowed and surfaced as None; only HTTP 200 yields a payload. -/
def trySqlDatabaseApi : HttpAttempt → Option Str
  | .resp 200 body => some body
  | .resp _ _ => none
  | .connectErr _ => none
  | .raised _ => none

/-- Model of _try_management_api: identical None-on-failure shape. -/
def tryManagementApi : HttpAttempt → Option Str
  | .resp 200 body => some body
  | .resp _ _ => none
  | .connectErr _ => none
  | .raised _ => none

/-- Outcome of execute_query_via_rest, recording whether the second
(management-plane) strategy was invoked. -/
structure RestRun where
  result : Except Str (Str × Nat)
  secondInvoked : Bool

/-- execute_query_via_rest: first strategy, then fallback to the second
whenever the first produced no result. -/
def executeQueryViaRest (first second : HttpAttempt) : RestRun :=
  match trySqlDatabaseApi first with
  | some r => { result := .ok (r, 1), secondInvoked := false }
  | none =>
      match tryManagementApi second with
      | some r => { result := .ok (r, 2), secondInvoked := true }
      | none =>
          { result := .error
              (str "REST API execution failed: All REST API endpoints failed to connect"),
            secondInvoked := true }

/-- C2 evaluation at the failing input: when the first strategy answers
HTTP 401 (or 403), the client does invoke the second strategy — and even
succeeds through it when the management endpoint answers 200 — because
_try_sql_database_api converts 401/403 into None before the
authentication-abort handler of execute_query_via_rest can see it. -/
theorem C2_fallback_on_auth_failure :
    (executeQueryViaRest (.resp 401 (str "denied")) (.resp 200 (str "rows"))).secondInvoked
        = true
    ∧ (executeQueryViaRest (.resp 401 (str "denied")) (.resp 200 (str "rows"))).result
        = Except.ok (str "rows", 2)
    ∧ (executeQueryViaRest (.resp 403 (str "denied")) (.resp 200 (str "rows"))).secondInvoked
        = true := ⟨rfl, rfl, rfl⟩

/-! ## Execution retry loop
Embedding of MCPTools.execute_sql_with_auth (src/mcp-sqlServer/src/mcp_tools.py),
step 2: max 3 attempts, exponential backoff, retryable-error allow-lists. -/

/-- One attempt of the underlying transport: a non-error result, an error
result dict, or a raised exception. -/
inductive AttemptOutcome where
  | success
  | errRes (msg : Str)
  | exc (msg : Str)

/-- Allow-list applied to error-result messages. -/
def resultRetryKeywords : List Str :=
  [str "timeout", str "connection", str "network", str "transient", str "temporary"]

/-- Allow-list applied to raised-exception messages (one entry longer). -/
def excRetryKeywords : List Str := resultRetryKeywords ++ [str "reset"]

def retryableResultMsg (m : Str) : Bool :=
  resultRetryKeywords.any (fun k => hasSub k (lowerS m))

def retryableExcMsg (m : Str) : Bool :=
  excRetryKeywords.any (fun k => hasSub k (lowerS m))

/-- Whether an outcome lets the loop re-attempt. -/
def retryableOutcomeB : AttemptOutcome → Bool
  | .success => false
  | .errRes m => retryableResultMsg m
  | .exc m => retryableExcMsg m

/-- Result of one whole execute_sql_with_auth call: final status, number of
attempts performed, and the sleeps taken between attempts. -/
structure RetryRun where
  succeeded : Bool
  errMsg : Option Str
  attempts : Nat
  delays : List Nat
deriving DecidableEq

/-- Final record when a non-retryable error result (or the last attempt's
error result) stops the loop. -/
def stopRunRes (m : Str) (attempt : Nat) (delays : List Nat) : RetryRun :=
  { succeeded := false, errMsg := some (str "SQL execution failed: " ++ m),
    attempts := attempt + 1, delays := delays }

/-- Final record when a non-retryable exception (or the last attempt's
exception) stops the loop. -/
def stopRunExc (m : Str) (attempt : Nat) (delays : List Nat) : RetryRun :=
  { succeeded := false,
    errMsg := some (str "Failed to execute query via pyodbc after 3 attempts: " ++ m),
    attempts := attempt + 1, delays := delays }

/-- Successful exit of the loop. -/
def okRun (attempt : Nat) (delays : List Nat) : RetryRun :=
  { succeeded := true, errMsg := none, attempts := attempt + 1, delays := delays }

/-- The retry loop body; remaining = max_retries - 1 - attempt, so the code's
re-attempt condition (attempt < max_retries - 1) is remaining > 0. -/
def retryGo (t : Nat → AttemptOutcome) : Nat → Nat → Nat → List Nat → RetryRun
  | 0, attempt, _, delays =>
    match t attempt with
    | .success => okRun attempt delays
    | .errRes m => stopRunRes m attempt delays
    | .exc m => stopRunExc m attempt delays
  | r + 1, attempt, delay, delays =>
    match t attempt with
    | .success => okRun attempt delays
    | .errRes m =>
        if retryableResultMsg m then retryGo t r (attempt + 1) (delay * 2) (delays ++ [delay])
        else stopRunRes m attempt delays
    | .exc m =>
        if retryableExcMsg m then retryGo t r (attempt + 1) (delay * 2) (delays ++ [delay])
        else stopRunExc m attempt delays

/-- execute_sql_with_auth, step 2: max_retries = 3, initial delay 1 second. -/
def executeSqlWithAuth (t : Nat → AttemptOutcome) : RetryRun := retryGo t 2 0 1 []

theorem retryGo_success {t : Nat → AttemptOutcome} {a : Nat} (h : t a = .success)
    (r d : Nat) (ds : List Nat) : retryGo t r a d ds = okRun a ds := by
  cases r <;> simp [retryGo, h]

theorem retryGo_errRes_stop {t : Nat → AttemptOutcome} {a : Nat} {m : Str}
    (h : t a = .errRes m) (hb : retryableResultMsg m = false)
    (r d : Nat) (ds : List Nat) : retryGo t r a d ds = stopRunRes m a ds := by
  cases r <;> simp [retryGo, h, hb]

theorem retryGo_exc_stop {t : Nat → AttemptOutcome} {a : Nat} {m : Str}
    (h : t a = .exc m) (hb : retryableExcMsg m = false)
    (r d : Nat) (ds : List Nat) : retryGo t r a d ds = stopRunExc m a ds := by
  cases r <;> simp [retryGo, h, hb]

theorem retryGo_errRes_zero {t : Nat → AttemptOutcome} {a : Nat} {m : Str}
    (h : t a = .errRes m) (d : Nat) (ds : List Nat) :
    retryGo t 0 a d ds = stopRunRes m a ds := by
  simp [retryGo, h]

theorem retryGo_exc_zero {t : Nat → AttemptOutcome} {a : Nat} {m : Str}
    (h : t a = .exc m) (d : Nat) (ds : List Nat) :
    retryGo t 0 a d ds = stopRunExc m a ds := by
  simp [retryGo, h]

theorem retryGo_errRes_step {t : Nat → AttemptOutcome} {a : Nat} {m : Str}
    (h : t a = .errRes m) (hb : retryableResultMsg m = true)
    (r d : Nat) (ds : List Nat) :
    retryGo t (r + 1) a d ds = retryGo t r (a + 1) (d * 2) (ds ++ [d]) := by
  simp [retryGo, h, hb]

theorem retryGo_exc_step {t : Nat → AttemptOutcome} {a : Nat} {m : Str}
    (h : t a = .exc m) (hb : retryableExcMsg m = true)
    (r d : Nat) (ds : List Nat) :
    retryGo t (r + 1) a d ds = retryGo t r (a + 1) (d * 2) (ds ++ [d]) := by
  simp [retryGo, h, hb]

theorem retryGo_attempts_bounds (t : Nat → AttemptOutcome) :
    ∀ r a d ds, a + 1 ≤ (retryGo t r a d ds).attempts
      ∧ (retryGo t r a d ds).attempts ≤ a + 1 + r := by
  intro r
  induction r with
  | zero =>
    intro a d ds
    cases h : t a with
    | success => rw [retryGo_success h]; simp [okRun]
    | errRes m => rw [retryGo_errRes_zero h]; simp [stopRunRes]
    | exc m => rw [retryGo_exc_zero h]; simp [stopRunExc]
  | succ s ih =>
    intro a d ds
    cases h : t a with
    | success => rw [retryGo_success h]; simp [okRun]
    | errRes m =>
      cases hb : retryableResultMsg m with
      | false => rw [retryGo_errRes_stop h hb]; simp [stopRunRes]
      | true =>
        rw [retryGo_errRes_step h hb]
        have := ih (a + 1) (d * 2) (ds ++ [d])
        omega
    | exc m =>
      cases hb : retryableExcMsg m with
      | false => rw [retryGo_exc_stop h hb]; simp [stopRunExc]
      | true =>
        rw [retryGo_exc_step h hb]
        have := ih (a + 1) (d * 2) (ds ++ [d])
        omega

theorem retryGo_retry_only_retryable (t : Nat → AttemptOutcome) :
    ∀ r a d ds k, a ≤ k → k + 1 < (retryGo t r a d ds).attempts →
      retryableOutcomeB (t k) = true := by
  intro r
  induction r with
  | zero =>
    intro a d ds k hak hlt
    have hub := (retryGo_attempts_bounds t 0 a d ds).2
    omega
  | succ s ih =>
    intro a d ds k hak hlt
    cases h : t a with
    | success => rw [retryGo_success h] at hlt; simp [okRun] at hlt; omega
    | errRes m =>
      cases hb : retryableResultMsg m with
      | false => rw [retryGo_errRes_stop h hb] at hlt; simp [stopRunRes] at hlt; omega
      | true =>
        rcases Nat.eq_or_lt_of_le hak with heq | hlt2
        · subst heq; simp [retryableOutcomeB, h, hb]
        · rw [retryGo_errRes_step h hb] at hlt
          exact ih (a + 1) (d * 2) (ds ++ [d]) k hlt2 hlt
    | exc m =>
      cases hb : retryableExcMsg m with
      | false => rw [retryGo_exc_stop h hb] at hlt; simp [stopRunExc] at hlt; omega
      | true =>
        rcases Nat.eq_or_lt_of_le hak with heq | hlt2
        · subst heq; simp [retryableOutcomeB, h, hb]
        · rw [retryGo_exc_step h hb] at hlt
          exact ih (a + 1) (d * 2) (ds ++ [d]) k hlt2 hlt

theorem retryGo_delays (t : Nat → AttemptOutcome) :
    ∀ r a d ds, (retryGo t r a d ds).delays
      = ds ++ (List.range ((retryGo t r a d ds).attempts - (a + 1))).map (fun i => d * 2 ^ i) := by
  intro r
  induction r with
  | zero =>
    intro a d ds
    cases h : t a with
    | success => rw [retryGo_success h]; simp [okRun]
    | errRes m => rw [retryGo_errRes_zero h]; simp [stopRunRes]
    | exc m => rw [retryGo_exc_zero h]; simp [stopRunExc]
  | succ s ih =>
    intro a d ds
    have step :
        ∀ res : RetryRun, res.attempts ≥ a + 2 →
          res.delays = (ds ++ [d])
            ++ (List.range (res.attempts - (a + 2))).map (fun i => d * 2 * 2 ^ i) →
          res.delays = ds ++ (List.range (res.attempts - (a + 1))).map (fun i => d * 2 ^ i) := by
      intro res hge hdl
      have hsplit : res.attempts - (a + 1) = (res.attempts - (a + 2)) + 1 := by omega
      rw [hsplit, List.range_succ_eq_map, List.map_cons, List.map_map]
      rw [hdl, List.append_assoc]
      congr 1
      simp only [pow_zero, Nat.mul_one, List.cons_append, List.nil_append]
      congr 1
      apply List.map_congr_left
      intro i _
      simp only [Function.comp_apply, pow_succ]
      ring
    cases h : t a with
    | success => rw [retryGo_success h]; simp [okRun]
    | errRes m =>
      cases hb : retryableResultMsg m with
      | false => rw [retryGo_errRes_stop h hb]; simp [stopRunRes]
      | true =>
        rw [retryGo_errRes_step h hb]
        exact step _ (by
            have := (retryGo_attempts_bounds t s (a + 1) (d * 2) (ds ++ [d])).1; omega)
          (ih (a + 1) (d * 2) (ds ++ [d]))
    | exc m =>
      cases hb : retryableExcMsg m with
      | false => rw [retryGo_exc_stop h hb]; simp [stopRunExc]
      | true =>
        rw [retryGo_exc_step h hb]
        exact step _ (by
            have := (retryGo_attempts_bounds t s (a + 1) (d * 2) (ds ++ [d])).1; omega)
          (ih (a + 1) (d * 2) (ds ++ [d]))

end SdkUsage

namespace SdkUsage

/-- Transport that fails with a retryable error result, then a retryable
exception, then succeeds. -/
def mixedRetryTransport : Nat → AttemptOutcome
  | 0 => .errRes (str "Connection timeout")
  | 1 => .errRes (str "transient network failure")
  | _ => .success

/-- Transport whose first attempt raises an exception whose message matches
none of the five claimed allow-list words. -/
def resetTransport : Nat → AttemptOutcome
  | 0 => .exc (str "reset")
  | _ => .success

/-- C3 (amended): the loop performs at most 3 attempts; a re-attempt happens
only after an outcome its allow-list marks retryable, where the allow-list
is (timeout, connection, network, transient, temporary) for error results
and additionally reset for raised exceptions; the sleeps double starting
from 1 second; and a transport failing retryably twice then succeeding
yields success after exactly 3 attempts. -/
theorem C3_retry_loop_amended (t : Nat → AttemptOutcome) :
    (executeSqlWithAuth t).attempts ≤ 3
    ∧ (∀ k, k + 1 < (executeSqlWithAuth t).attempts → retryableOutcomeB (t k) = true)
    ∧ (executeSqlWithAuth t).delays
        = (List.range ((executeSqlWithAuth t).attempts - 1)).map (fun i => 2 ^ i)
    ∧ (retryableOutcomeB (t 0) = true → retryableOutcomeB (t 1) = true →
        t 2 = .success →
        (executeSqlWithAuth t).succeeded = true ∧ (executeSqlWithAuth t).attempts = 3) := by
  refine ⟨?_, ?_, ?_, ?_⟩
  · have h := (retryGo_attempts_bounds t 2 0 1 []).2
    simpa [executeSqlWithAuth] using h
  · intro k hk
    exact retryGo_retry_only_retryable t 2 0 1 [] k (Nat.zero_le k) hk
  · have h := retryGo_delays t 2 0 1 []
    simpa [executeSqlWithAuth, Nat.one_mul] using h
  · intro h0 h1 h2
    have s0 : executeSqlWithAuth t = retryGo t 1 1 2 [1] := by
      cases ht0 : t 0 with
      | success => rw [ht0] at h0; simp [retryableOutcomeB] at h0
      | errRes m =>
        rw [ht0] at h0; simp only [retryableOutcomeB] at h0
        exact retryGo_errRes_step ht0 h0 1 1 []
      | exc m =>
        rw [ht0] at h0; simp only [retryableOutcomeB] at h0
        exact retryGo_exc_step ht0 h0 1 1 []
    have s1 : retryGo t 1 1 2 [1] = retryGo t 0 2 4 [1, 2] := by
      cases ht1 : t 1 with
      | success => rw [ht1] at h1; simp [retryableOutcomeB] at h1
      | errRes m =>
        rw [ht1] at h1; simp only [retryableOutcomeB] at h1
        exact retryGo_errRes_step ht1 h1 0 2 [1]
      | exc m =>
        rw [ht1] at h1; simp only [retryableOutcomeB] at h1
        exact retryGo_exc_step ht1 h1 0 2 [1]
    have s2 : retryGo t 0 2 4 [1, 2] = okRun 2 [1, 2] := retryGo_success h2 0 4 [1, 2]
    rw [s0, s1, s2]
    exact ⟨rfl, rfl⟩

/-- Witness for C3 (amended) at a concrete transport. -/
theorem C3_retry_loop_amended_witness :
    (executeSqlWithAuth mixedRetryTransport).succeeded = true
    ∧ (executeSqlWithAuth mixedRetryTransport).attempts = 3 :=
  (C3_retry_loop_amended mixedRetryTransport).2.2.2 (by decide) (by decide) rfl

/-- C3 counterexample to the claim as stated: the transport's first attempt
fails with the message reset, which contains none of the five allow-list
words (timeout, connection, network, transient, temporary), yet the loop
does re-attempt and succeeds on attempt 2 — because the exception path of
the code additionally treats reset as retryable. -/
theorem C3_counterexample :
    (executeSqlWithAuth resetTransport).attempts = 2
    ∧ (executeSqlWithAuth resetTransport).succeeded = true
    ∧ resultRetryKeywords.any (fun k => hasSub k (lowerS (str "reset"))) = false := by
  refine ⟨by decide, by decide, by decide⟩

end SdkUsage

namespace SdkUsage

/-! ## Schema catalog
Embedding of src/mcp-sqlServer/src/schema_loader.py (SchemaLoader). -/

/-- Column metadata recorded by the loader (the fields the parsing pipeline
reads: title and description). -/
structure ColumnMeta where
  title : Str
  description : Str
deriving DecidableEq

/-- One loaded table entry of the schema dict. -/
structure TableInfo where
  name : Str
  enabled : Bool
  description : Str
  columns : List Str
  columnMetadata : List (Str × ColumnMeta)
deriving DecidableEq

/-- The loaded tables dict, in insertion order, keyed by lowercased name. -/
abbrev Catalog := List (Str × TableInfo)

/-- First-match association lookup (dict access). -/
def assocLookup {α : Type} (m : List (Str × α)) (k : Str) : Option α :=
  (m.find? (fun p => p.1 == k)).map (fun p => p.2)

/-- A column entry of the raw manifest. -/
structure RawColumn where
  columnName : Str
  ref : Option Str
deriving DecidableEq

/-- A definitions entry of the raw manifest. -/
structure DefInfo where
  title : Option Str
  description : Option Str
  enumVals : Option (List Str)
deriving DecidableEq

/-- A Tables entry of the raw manifest. -/
structure ManifestTable where
  tableName : Str
  enabledStr : Option Str
  description : Option Str
  columns : List RawColumn
deriving DecidableEq

/-- A successfully read and JSON-parsed manifest. -/
structure Manifest where
  tables : List ManifestTable
  definitions : List (Str × DefInfo)
deriving DecidableEq

/-- The memoized schema value: tables dict plus definitions. -/
structure SchemaCache where
  tables : Catalog
  definitions : List (Str × DefInfo)
deriving DecidableEq

/-- The conversion loop body of load_table_schema for one table. -/
def convertTable (defs : List (Str × DefInfo)) (t : ManifestTable) : Str × TableInfo :=
  let cols := t.columns.map (fun c => c.columnName)
  let meta := t.columns.filterMap (fun c =>
    match c.ref with
    | none => none
    | some r =>
        match assocLookup defs r with
        | some di =>
            some (c.columnName,
              { title := di.title.getD c.columnName,
                description := di.description.getD (str "") })
        | none => none)
  (lowerS t.tableName,
   { name := t.tableName,
     enabled := (t.enabledStr.getD (str "true")) == (str "true"),
     description := t.description.getD (str ""),
     columns := cols,
     columnMetadata := meta })

/-- Successful conversion of a whole manifest. -/
def convertManifest (m : Manifest) : SchemaCache :=
  { tables := m.tables.map (convertTable m.definitions), definitions := m.definitions }

/-- The catalog returned when the manifest is missing or malformed. -/
def emptySchemaCache : SchemaCache := { tables := [], definitions := [] }

/-- One call of SchemaLoader.load_table_schema: returns the cached value if
set; otherwise reads the manifest. A read failure yields the empty schema
and, crucially, leaves the cache unset; a success stores the cache. The
Bool records whether a read was performed. -/
def loadTableSchemaStep (cache : Option SchemaCache) (readRes : Except Unit Manifest) :
    SchemaCache × Option SchemaCache × Bool :=
  match cache with
  | some c => (c, some c, false)
  | none =>
      match readRes with
      | .error _ => (emptySchemaCache, none, true)
      | .ok m =>
          let c := convertManifest m
          (c, some c, true)

/-- A sequence of load_table_schema calls in one process, with the outcome
each underlying read would produce; returns all results and the total
number of reads performed. -/
def runLoadCalls (cache : Option SchemaCache) :
    List (Except Unit Manifest) → List SchemaCache × Nat
  | [] => ([], 0)
  | r :: rs =>
      let step := loadTableSchemaStep cache r
      let rest := runLoadCalls step.2.1 rs
      (step.1 :: rest.1, (if step.2.2 then 1 else 0) + rest.2)

theorem runLoadCalls_cached (c : SchemaCache) :
    ∀ rs, runLoadCalls (some c) rs = (List.replicate rs.length c, 0) := by
  intro rs
  induction rs with
  | nil => rfl
  | cons r rs ih => simp [runLoadCalls, loadTableSchemaStep, ih, List.replicate_succ]

/-- C7 (amended): a failed (missing/malformed) read is absorbed into the
empty catalog — no tables, no definitions — rather than raised; once a read
succeeds, the result is memoized: over any whole call sequence starting
with a successful read, exactly one read is performed and every call
returns the same converted catalog. Failed loads, however, are not cached
(see the counterexample). -/
theorem C7_schema_load_amended :
    (loadTableSchemaStep none (Except.error ())).1 = emptySchemaCache
    ∧ (∀ (m : Manifest) (rs : List (Except Unit Manifest)),
        (runLoadCalls none (Except.ok m :: rs)).2 = 1
        ∧ (runLoadCalls none (Except.ok m :: rs)).1
            = List.replicate (rs.length + 1) (convertManifest m)) := by
  refine ⟨rfl, ?_⟩
  intro m rs
  constructor
  · simp [runLoadCalls, loadTableSchemaStep, runLoadCalls_cached]
  · simp [runLoadCalls, loadTableSchemaStep, runLoadCalls_cached, List.replicate_succ]

/-- C7 counterexample to the claim as stated: when the first read fails, a
second call re-executes the read — two reads in one process life — because
only successful loads are memoized. -/
theorem C7_counterexample :
    (runLoadCalls none [Except.error (), Except.error ()]).2 = 2
    ∧ (runLoadCalls none [Except.error (), Except.error ()]).1
        = [emptySchemaCache, emptySchemaCache] := ⟨rfl, rfl⟩

end SdkUsage

namespace SdkUsage

/-! ## Table resolver
Embedding of find_table_by_name (src/mcp-sqlServer/sqlQuery.py; the class
version in src/query_parser.py adds one alias-based scoring rule but has the
same direct-match stage). -/

/-- Only enabled tables take part in resolution. -/
def enabledTablesOf (cat : Catalog) : Catalog := cat.filter (fun kv => kv.2.enabled)

/-- Direct-match test of the first loop: the dict key or the lowercased
display name occurs in the lowercased question. -/
def directHit (ql : Str) (kv : Str × TableInfo) : Bool :=
  hasSub kv.1 ql || hasSub (lowerS kv.2.name) ql

/-- The direct-match loop: first hit in catalog order wins. -/
def directMatchTable (ql : Str) : Catalog → Option Str
  | [] => none
  | kv :: rest => if directHit ql kv then some kv.2.name else directMatchTable ql rest

/-- The keyword scoring of one table (fixed weights, summed). -/
def scoreTable (ql : Str) (kv : Str × TableInfo) : Nat :=
  let tn := lowerS kv.2.name
  let desc := lowerS kv.2.description
  let cols := kv.2.columns
  (if hasSub (str "product") ql && hasSub (str "product") tn then 2 else 0)
  + (if hasSub (str "customer") ql && hasSub (str "customer") tn then 2 else 0)
  + (if hasSub (str "subscription") ql && hasSub (str "subscription") tn then 2 else 0)
  + (if hasSub (str "go") ql && hasSub (str "gosdk") tn then 3 else 0)
  + (if hasSub (str "request") ql && (hasSub (str "req") tn || hasSub (str "request") desc)
      then 1 else 0)
  + (if hasSub (str "count") ql && hasSub (str "count") tn then 1 else 0)
  + (if hasSub (str "track") ql && hasSub (str "track") tn then 1 else 0)
  + (if hasSub (str "api") ql && hasSub (str "api") tn then 1 else 0)
  + (if hasSub (str "version") ql && hasSub (str "version") tn then 1 else 0)
  + (if hasSub (str "language") ql && hasSub (str "language") tn then 1 else 0)
  + (if hasSub (str "os") ql && hasSub (str "os") tn then 1 else 0)
  + (if hasSub (str "provider") ql && hasSub (str "provider") tn then 1 else 0)
  + (if hasSub (str "provider") ql && cols.contains (str "Provider") then 1 else 0)
  + (if hasSub (str "resource") ql && cols.contains (str "Resource") then 1 else 0)
  + (if hasSub (str "http") ql && cols.contains (str "HttpMethod") then 1 else 0)
  + (if hasSub (str "method") ql && cols.contains (str "HttpMethod") then 1 else 0)
  + (if hasSub (str "os") ql && cols.contains (str "OS") then 1 else 0)

/-- Python dict assignment: replace in place if the key exists, else append. -/
def updateAssoc (m : List (Str × Nat)) (k : Str) (v : Nat) : List (Str × Nat) :=
  if (m.find? (fun p => p.1 == k)).isSome then
    m.map (fun p => if p.1 == k then (k, v) else p)
  else m ++ [(k, v)]

/-- table_scores: only tables with positive score are recorded. -/
def buildScores (ql : Str) : Catalog → List (Str × Nat) → List (Str × Nat)
  | [], acc => acc
  | kv :: rest, acc =>
      let s := scoreTable ql kv
      buildScores ql rest (if s > 0 then updateAssoc acc kv.2.name s else acc)

/-- Python max(items, key=score): the first item with maximal score wins. -/
def maxFirstGo (best : Str × Nat) : List (Str × Nat) → Str × Nat
  | [] => best
  | x :: xs => maxFirstGo (if x.2 > best.2 then x else best) xs

def maxFirst : List (Str × Nat) → Option Str
  | [] => none
  | kv :: rest => some (maxFirstGo kv rest).1

/-- find_table_by_name: direct name match, else keyword scoring, else the
first enabled table, else not found. -/
def findTableByName (cat : Catalog) (q : Str) : Option Str :=
  match directMatchTable (lowerS q) (enabledTablesOf cat) with
  | some n => some n
  | none =>
      match maxFirst (buildScores (lowerS q) (enabledTablesOf cat) []) with
      | some n => some n
      | none =>
          match enabledTablesOf cat with
          | [] => none
          | kv :: _ => some kv.2.name

theorem directMatchTable_first (ql : Str) (pre post : Catalog) (kv : Str × TableInfo)
    (hpre : ∀ e ∈ pre, directHit ql e = false) (hhit : directHit ql kv = true) :
    directMatchTable ql (pre ++ kv :: post) = some kv.2.name := by
  induction pre with
  | nil => simp [directMatchTable, hhit]
  | cons e rest ih =>
    have he : directHit ql e = false := hpre e (by simp)
    simp only [List.cons_append, directMatchTable, he, Bool.false_eq_true, if_false]
    exact ih (fun x hx => hpre x (by simp [hx]))

/-- C4 (amended): for every enabled table whose key or lowercased name occurs
in the lowercased question, if no earlier enabled table in catalog order
also matches directly, the resolver returns exactly that table — the first
direct hit in catalog order wins; disabled tables never participate. -/
theorem C4_table_resolver_amended (cat : Catalog) (q : Str) (pre post : Catalog)
    (kv : Str × TableInfo)
    (hsplit : enabledTablesOf cat = pre ++ kv :: post)
    (hpre : ∀ e ∈ pre, directHit (lowerS q) e = false)
    (hhit : directHit (lowerS q) kv = true) :
    findTableByName cat q = some kv.2.name := by
  unfold findTableByName
  rw [hsplit, directMatchTable_first (lowerS q) pre post kv hpre hhit]


/-- The two-table catalog used to exercise the resolver. -/
def alphaInfo : TableInfo :=
  { name := str "Alpha", enabled := true, description := str "",
    columns := [], columnMetadata := [] }

def betaInfo : TableInfo :=
  { name := str "Beta", enabled := true, description := str "",
    columns := [], columnMetadata := [] }

def twoTableCat : Catalog := [(str "alpha", alphaInfo), (str "beta", betaInfo)]

/-- Witness for C4 (amended): a question naming only the second table
resolves to that table. -/
theorem C4_table_resolver_amended_witness :
    findTableByName twoTableCat (str "show beta stats") = some (str "Beta") :=
  C4_table_resolver_amended twoTableCat (str "show beta stats")
    [(str "alpha", alphaInfo)] [] (str "beta", betaInfo)
    (by decide) (by decide) (by decide)

/-- C4 counterexample to the claim as stated: Beta is in the catalog and its
exact name occurs (case-insensitively) in the question, yet the resolver
returns Alpha, the earlier direct hit in catalog order. -/
theorem C4_counterexample :
    ((str "beta", betaInfo) ∈ twoTableCat ∧ betaInfo.enabled = true)
    ∧ hasSub (lowerS betaInfo.name) (lowerS (str "show alpha beta")) = true
    ∧ findTableByName twoTableCat (str "show alpha beta") = some (str "Alpha")
    ∧ alphaInfo.name ≠ betaInfo.name := by
  exact ⟨by constructor; decide; decide, by decide, by decide, by decide⟩

end SdkUsage

namespace SdkUsage

/-! ## Column selector
Embedding of extract_columns_from_query (src/mcp-sqlServer/sqlQuery.py and
its identical class version in src/query_parser.py). -/

/-- Python str.split() on whitespace, dropping empty pieces (fuel-based). -/
def splitWordsFuel : Nat → Str → List Str
  | 0, _ => []
  | fuel + 1, s =>
      match s.dropWhile wsB with
      | [] => []
      | c :: rest =>
          ((c :: rest).takeWhile (fun x => !(wsB x)))
            :: splitWordsFuel fuel ((c :: rest).dropWhile (fun x => !(wsB x)))

def splitWords (s : Str) : List Str := splitWordsFuel (s.length + 1) s

/-- any(word in query for word in ws). -/
def anyWord (ws : List Str) (ql : Str) : Bool := ws.any (fun w => hasSub w ql)

/-- Key columns always added for context when intent matching ran. -/
def keyColumns : List Str := [str "Month", str "RequestCount", str "SubscriptionCount"]

/-- The fixed priority list of the final fallback, capped at 5. -/
def priorityColumns : List Str :=
  [str "Month", str "Product", str "RequestCount", str "SubscriptionCount", str "TrackInfo"]

/-- The mentioned-columns pass: literal column-name match, else title /
description-word match through the column metadata. -/
def mentionedColumns (info : TableInfo) (ql : Str) : List Str :=
  info.columns.filter (fun col =>
    hasSub (lowerS col) ql ||
    (match assocLookup info.columnMetadata col with
     | some meta =>
         hasSub (lowerS meta.title) ql
           || (splitWords ql).any (fun w => hasSub w (lowerS meta.description))
     | none => false))

/-- One intent bucket: its column when the guard fired, else nothing. -/
def mkBucket (b : Bool) (col : Str) : List Str := if b then [col] else []

/-- The six intent buckets, in source order. -/
def intentBuckets (info : TableInfo) (ql : Str) : List (List Str) :=
  [mkBucket (anyWord [str "product", str "sdk", str "tool"] ql
      && info.columns.contains (str "Product")) (str "Product"),
   mkBucket (anyWord [str "track", str "version"] ql
      && info.columns.contains (str "TrackInfo")) (str "TrackInfo"),
   mkBucket (anyWord [str "provider", str "service"] ql
      && info.columns.contains (str "Provider")) (str "Provider"),
   mkBucket (anyWord [str "resource", str "type"] ql
      && info.columns.contains (str "Resource")) (str "Resource"),
   mkBucket (anyWord [str "method", str "http", str "get", str "post", str "put",
        str "delete"] ql
      && info.columns.contains (str "HttpMethod")) (str "HttpMethod"),
   mkBucket (anyWord [str "os", str "operating", str "system", str "windows", str "linux",
        str "mac"] ql
      && info.columns.contains (str "OS")) (str "OS")]

/-- The intent-keyword pass (buckets in source order, then key columns). -/
def intentColumns (info : TableInfo) (ql : Str) : List Str :=
  let intent1 := (intentBuckets info ql).flatten
  intent1 ++ keyColumns.filter
    (fun c => info.columns.contains c && !(intent1.contains c))

theorem mem_mkBucket {b : Bool} {col c : Str} (h : c ∈ mkBucket b col) :
    c = col ∧ b = true := by
  unfold mkBucket at h
  cases b with
  | false => simp at h
  | true => simp at h; exact ⟨h, rfl⟩

/-- Column selection for a table found in the schema. -/
def knownColumns (info : TableInfo) (ql : Str) : List Str :=
  let mentioned := mentionedColumns info ql
  if mentioned ≠ [] then mentioned
  else
    let intent := intentColumns info ql
    if intent ≠ [] then intent
    else (priorityColumns.filter (fun c => info.columns.contains c)).take 5

/-- extract_columns_from_query: star for a missing/unknown table name, else
the three-stage selection. -/
def extractColumnsFromQuery (cat : Catalog) (q tname : Str) : List Str :=
  if tname = [] then [str "*"]
  else
    match assocLookup cat (lowerS tname) with
    | none => [str "*"]
    | some info => knownColumns info (lowerS q)

theorem extractColumns_known (cat : Catalog) (q tname : Str) (info : TableInfo)
    (hname : tname ≠ []) (hlook : assocLookup cat (lowerS tname) = some info) :
    extractColumnsFromQuery cat q tname = knownColumns info (lowerS q) := by
  unfold extractColumnsFromQuery
  rw [if_neg hname, hlook]

theorem knownColumns_subset (info : TableInfo) (ql : Str) :
    ∀ c ∈ knownColumns info ql, c ∈ info.columns := by
  intro c hc
  unfold knownColumns at hc
  by_cases hm : mentionedColumns info ql ≠ []
  · rw [if_pos hm] at hc
    exact (List.mem_filter.mp hc).1
  · rw [if_neg hm] at hc
    by_cases hi : intentColumns info ql ≠ []
    · rw [if_pos hi] at hc
      unfold intentColumns at hc
      simp only [List.mem_append] at hc
      rcases hc with hc | hc
      · rcases List.mem_flatten.mp hc with ⟨block, hb, hcb⟩
        have hb6 := hb
        simp only [intentBuckets, List.mem_cons, List.not_mem_nil, or_false] at hb6
        rcases hb6 with h6 | h6 | h6 | h6 | h6 | h6 <;>
          (subst h6
           rcases mem_mkBucket hcb with ⟨rfl, hguard⟩
           exact List.mem_of_elem_eq_true ((Bool.and_eq_true _ _).mp hguard).2)
      · have hf := (List.mem_filter.mp hc).2
        exact List.mem_of_elem_eq_true ((Bool.and_eq_true _ _).mp hf).1
    · rw [if_neg hi] at hc
      have hmt := List.mem_of_mem_take hc
      exact List.mem_of_elem_eq_true (List.mem_filter.mp hmt).2

/-- C5 (amended): for a known, non-empty table name whose table has at least
one of the five priority columns, the selector returns a non-empty list;
and when the literal star is not itself a column of the table, the selector
never returns the bare star list for a known table. -/
theorem C5_column_selector_amended (cat : Catalog) (q tname : Str) (info : TableInfo)
    (hname : tname ≠ []) (hlook : assocLookup cat (lowerS tname) = some info)
    (hpri : priorityColumns.any (fun c => info.columns.contains c) = true) :
    extractColumnsFromQuery cat q tname ≠ []
    ∧ ((str "*") ∉ info.columns → extractColumnsFromQuery cat q tname ≠ [str "*"]) := by
  rw [extractColumns_known cat q tname info hname hlook]
  constructor
  · unfold knownColumns
    by_cases hm : mentionedColumns info (lowerS q) ≠ []
    · rwa [if_pos hm]
    · rw [if_neg hm]
      by_cases hi : intentColumns info (lowerS q) ≠ []
      · rwa [if_pos hi]
      · rw [if_neg hi]
        rcases List.any_eq_true.mp hpri with ⟨c, hcp, hcc⟩
        have hfil : c ∈ priorityColumns.filter (fun c => info.columns.contains c) :=
          List.mem_filter.mpr ⟨hcp, hcc⟩
        intro htake
        rcases List.take_eq_nil_iff.mp htake with h5 | hnil
        · exact absurd h5 (by norm_num)
        · rw [hnil] at hfil; simp at hfil
  · intro hstar heq
    apply hstar
    have hmem : (str "*") ∈ knownColumns info (lowerS q) := by
      rw [heq]; simp
    exact knownColumns_subset info (lowerS q) _ hmem

/-- A known table having none of the key or priority columns. -/
def plainTable : TableInfo :=
  { name := str "Plain", enabled := true, description := str "",
    columns := [str "Foo"], columnMetadata := [] }

def plainCat : Catalog := [(str "plain", plainTable)]

/-- A known table that does have a priority column. -/
def monthTable : TableInfo :=
  { name := str "Usage", enabled := true, description := str "",
    columns := [str "Month", str "Foo"], columnMetadata := [] }

def monthCat : Catalog := [(str "usage", monthTable)]

/-- Witness for C5 (amended) at a concrete catalog and question. -/
theorem C5_column_selector_amended_witness :
    extractColumnsFromQuery monthCat (str "hello") (str "Usage") ≠ []
    ∧ extractColumnsFromQuery monthCat (str "hello") (str "Usage") ≠ [str "*"] :=
  ⟨(C5_column_selector_amended monthCat (str "hello") (str "Usage") monthTable
      (by decide) (by decide) (by decide)).1,
   (C5_column_selector_amended monthCat (str "hello") (str "Usage") monthTable
      (by decide) (by decide) (by decide)).2 (by decide)⟩

/-- C5 counterexample to the claim as stated: the table Plain is known to the
catalog, yet the selector returns the empty column list for a question that
matches nothing, because Plain has none of the key or priority columns. -/
theorem C5_counterexample :
    assocLookup plainCat (lowerS (str "Plain")) = some plainTable
    ∧ extractColumnsFromQuery plainCat (str "hello") (str "Plain") = [] := by
  exact ⟨by decide, by decide⟩

end SdkUsage

namespace SdkUsage

/-! ## Predicate builder
Embedding of build_where_clause (src/mcp-sqlServer/sqlQuery.py; the class
version in src/query_parser.py differs only in resolving products through
the alias mapper). The regex searches of the source are modelled by
fuel-driven left-to-right scanners with the same leftmost, first-alternative
semantics. -/

def isDigitB (c : Char) : Bool := c.isDigit

def isWordB (c : Char) : Bool := c.isAlpha || c.isDigit || c = '_'

/-- One attempt of the date regex (\d4-\d2-\d2 | \d4-\d2 | \d4/\d2) at the
current position: the matched text and the rest, or none. -/
def tryDateAt : Str → Option (Str × Str) := fun l =>
  match l with
  | d1 :: d2 :: d3 :: d4 :: rest =>
      if [d1, d2, d3, d4].all isDigitB then
        match rest with
        | '-' :: e1 :: e2 :: rest2 =>
            if [e1, e2].all isDigitB then
              match rest2 with
              | '-' :: f1 :: f2 :: rest3 =>
                  if [f1, f2].all isDigitB then
                    some ([d1, d2, d3, d4, '-', e1, e2, '-', f1, f2], rest3)
                  else some ([d1, d2, d3, d4, '-', e1, e2], rest2)
              | _ => some ([d1, d2, d3, d4, '-', e1, e2], rest2)
            else none
        | '/' :: e1 :: e2 :: rest2 =>
            if [e1, e2].all isDigitB then some ([d1, d2, d3, d4, '/', e1, e2], rest2)
            else none
        | _ => none
      else none
  | _ => none

/-- re.findall of the date regex: leftmost non-overlapping matches. -/
def findMonthsFuel : Nat → Str → List Str
  | 0, _ => []
  | fuel + 1, l =>
      match l with
      | [] => []
      | c :: rest =>
          match tryDateAt (c :: rest) with
          | some (m, rest2) => m :: findMonthsFuel fuel rest2
          | none => findMonthsFuel fuel rest

def findMonths (l : Str) : List Str := findMonthsFuel (l.length + 1) l

/-- Rendering of one date hit: 7 characters means a month prefix match. -/
def monthClause (m : Str) : Str :=
  if m.length = 7 then str "Month LIKE \x27" ++ m ++ str "%\x27"
  else str "Month = \x27" ++ m ++ str "\x27"

def monthConds (cols : List Str) (ql : Str) : List Str :=
  if findMonths ql ≠ [] ∧ (str "Month") ∈ cols then (findMonths ql).map monthClause
  else []

def thisMonthConds (cols : List Str) (ql : Str) : List Str :=
  if hasSub (str "this month") ql = true ∧ (str "Month") ∈ cols then
    [str "Month LIKE \x272025-08%\x27"]
  else []

/-- The enum lists the module reads from the schema definitions. -/
structure EnumEnv where
  productEnum : List Str
  trackEnum : List Str
  httpEnum : List Str
  osEnum : List Str

def productConds (env : EnumEnv) (cols : List Str) (ql : Str) : List Str :=
  if (str "Product") ∈ cols then
    match env.productEnum.find? (fun p => hasSub (lowerS p) ql) with
    | some p => [str "Product = \x27" ++ p ++ str "\x27"]
    | none => []
  else []

def trackConds (env : EnumEnv) (cols : List Str) (ql : Str) : List Str :=
  if (str "TrackInfo") ∈ cols then
    (match env.trackEnum.find? (fun p => hasSub (lowerS p) ql) with
     | some p => [str "TrackInfo = \x27" ++ p ++ str "\x27"]
     | none => [])
    ++ (if hasSub (str "track 1") ql = true ∨ hasSub (str "track1") ql = true then
          [str "TrackInfo = \x27Track1\x27"]
        else if hasSub (str "track 2") ql = true ∨ hasSub (str "track2") ql = true then
          [str "TrackInfo = \x27Track2\x27"]
        else [])
  else []

/-- Scanner for the regex lit(\w+): first position where the literal matches
followed by at least one word character; returns the captured word. -/
def scanLitWordFuel (lit : Str) : Nat → Str → Option Str
  | 0, _ => none
  | fuel + 1, l =>
      (if lit.isPrefixOf l then
        match (l.drop lit.length).takeWhile isWordB with
        | [] => none
        | w => some w
      else none).orElse
        (fun _ => match l with
          | [] => none
          | _ :: rest => scanLitWordFuel lit fuel rest)

/-- Scanner for the regex microsoft\s+(\w+). -/
def scanMsSpaceFuel : Nat → Str → Option Str
  | 0, _ => none
  | fuel + 1, l =>
      (if (str "microsoft").isPrefixOf l then
        let after := l.drop 9
        match after.takeWhile wsB with
        | [] => none
        | sp =>
            match (after.drop sp.length).takeWhile isWordB with
            | [] => none
            | w => some w
      else none).orElse
        (fun _ => match l with
          | [] => none
          | _ :: rest => scanMsSpaceFuel fuel rest)

/-- Scanner for an alternation of literals: leftmost position wins, and at
one position the first alternative in pattern order wins. -/
def scanAltFuel (lits : List Str) : Nat → Str → Option Str
  | 0, _ => none
  | fuel + 1, l =>
      (lits.find? (fun lit => lit.isPrefixOf l)).orElse
        (fun _ => match l with
          | [] => none
          | _ :: rest => scanAltFuel lits fuel rest)

def providerLits : List Str :=
  [str "compute", str "storage", str "network", str "web", str "sql", str "keyvault",
   str "resources", str "container", str "documentdb", str "authorization"]

/-- Python str.capitalize(). -/
def capitalize : Str → Str
  | [] => []
  | c :: rest => c.toUpper :: rest.map Char.toLower

def providerConds (cols : List Str) (ql : Str) : List Str :=
  if (str "Provider") ∈ cols then
    match scanLitWordFuel (str "microsoft.") (ql.length + 1) ql with
    | some cap => [str "Provider LIKE \x27%Microsoft." ++ capitalize cap ++ str "%\x27"]
    | none =>
        match scanMsSpaceFuel (ql.length + 1) ql with
        | some cap => [str "Provider LIKE \x27%Microsoft." ++ capitalize cap ++ str "%\x27"]
        | none =>
            match scanAltFuel providerLits (ql.length + 1) ql with
            | some lit => [str "Provider LIKE \x27%" ++ lit ++ str "%\x27"]
            | none => []
  else []

def resourceKeywords : List Str :=
  [str "virtualmachines", str "vm", str "virtual machines",
   str "storageaccounts", str "storage accounts", str "storage",
   str "virtualnetworks", str "vnet", str "virtual networks", str "network",
   str "webapps", str "web apps", str "webapp",
   str "sqlservers", str "sql servers", str "sql",
   str "keyvaults", str "key vaults", str "keyvault",
   str "resourcegroups", str "resource groups",
   str "kubernetesclusters", str "kubernetes", str "aks",
   str "cosmosdbaccounts", str "cosmos", str "cosmosdb",
   str "roleassignments", str "role assignments"]

/-- Keyword-to-clause mapping of the resource branch. -/
def resourceClauseFor (k : Str) : Str :=
  if k = str "vm" ∨ k = str "virtual machines" then
    str "Resource LIKE \x27%virtualMachines%\x27"
  else if k = str "storage accounts" ∨ k = str "storage" then
    str "Resource LIKE \x27%storageAccounts%\x27"
  else if k = str "vnet" ∨ k = str "virtual networks" ∨ k = str "network" then
    str "Resource LIKE \x27%virtualNetworks%\x27"
  else if k = str "web apps" ∨ k = str "webapp" then
    str "Resource LIKE \x27%webApps%\x27"
  else if k = str "sql servers" ∨ k = str "sql" then
    str "Resource LIKE \x27%sqlServers%\x27"
  else if k = str "key vaults" ∨ k = str "keyvault" then
    str "Resource LIKE \x27%keyVaults%\x27"
  else if k = str "resource groups" then
    str "Resource LIKE \x27%resourceGroups%\x27"
  else if k = str "kubernetes" ∨ k = str "aks" then
    str "Resource LIKE \x27%kubernetesClusters%\x27"
  else if k = str "cosmos" ∨ k = str "cosmosdb" then
    str "Resource LIKE \x27%cosmosDbAccounts%\x27"
  else if k = str "role assignments" then
    str "Resource LIKE \x27%roleAssignments%\x27"
  else str "Resource LIKE \x27%" ++ k ++ str "%\x27"

def resourceConds (cols : List Str) (ql : Str) : List Str :=
  if (str "Resource") ∈ cols then
    match resourceKeywords.find? (fun k => hasSub k ql) with
    | some k => [resourceClauseFor k]
    | none => []
  else []

def httpConds (env : EnumEnv) (cols : List Str) (ql : Str) : List Str :=
  if (str "HttpMethod") ∈ cols then
    match env.httpEnum.find? (fun m => hasSub (lowerS m) ql) with
    | some m => [str "HttpMethod = \x27" ++ m ++ str "\x27"]
    | none => []
  else []

def osConds (env : EnumEnv) (cols : List Str) (ql : Str) : List Str :=
  if (str "OS") ∈ cols then
    match env.osEnum.find? (fun m => hasSub (lowerS m) ql) with
    | some m => [str "OS = \x27" ++ m ++ str "\x27"]
    | none => []
  else []

/-- Scanner for (phrase alternation)\s+(\d+): the captured digit run. -/
def scanPhrasesNumFuel (phrases : List Str) : Nat → Str → Option Str
  | 0, _ => none
  | fuel + 1, l =>
      (phrases.findSome? (fun ph =>
        if ph.isPrefixOf l then
          let after := l.drop ph.length
          match after.takeWhile wsB with
          | [] => none
          | sp =>
              match (after.drop sp.length).takeWhile isDigitB with
              | [] => none
              | d => some d
        else none)).orElse
        (fun _ => match l with
          | [] => none
          | _ :: rest => scanPhrasesNumFuel phrases fuel rest)

/-- The numeric comparison patterns, tried in source order over the whole
question; the first pattern with any match anywhere wins. -/
def numericHit (ql : Str) : Option (Str × Str) :=
  match scanPhrasesNumFuel [str "more than", str "greater than", str "above"]
      (ql.length + 1) ql with
  | some d => some (str " > ", d)
  | none =>
      match scanPhrasesNumFuel [str "less than", str "below", str "under"]
          (ql.length + 1) ql with
      | some d => some (str " < ", d)
      | none =>
          match scanPhrasesNumFuel [str "at least", str "minimum of"]
              (ql.length + 1) ql with
          | some d => some (str " >= ", d)
          | none =>
              match scanPhrasesNumFuel [str "at most", str "maximum of"]
                  (ql.length + 1) ql with
              | some d => some (str " <= ", d)
              | none =>
                  match scanPhrasesNumFuel [str "exactly", str "equal to"]
                      (ql.length + 1) ql with
                  | some d => some (str " = ", d)
                  | none => none

def countColumns : List Str :=
  [str "RequestCount", str "SubscriptionCount", str "RequestCounts", str "CCIDCount"]

def numericConds (cols : List Str) (ql : Str) : List Str :=
  countColumns.filterMap (fun col =>
    if col ∈ cols then
      match numericHit ql with
      | some (op, d) => some (col ++ op ++ d)
      | none => none
    else none)

/-- The condition list of build_where_clause, appended in source order. -/
def buildWhereCondList (env : EnumEnv) (cols : List Str) (ql : Str) : List Str :=
  monthConds cols ql ++ thisMonthConds cols ql ++ productConds env cols ql
    ++ trackConds env cols ql ++ providerConds cols ql ++ resourceConds cols ql
    ++ httpConds env cols ql ++ osConds env cols ql ++ numericConds cols ql

/-- build_where_clause for a known column set: AND-join, tautology default. -/
def buildWhereClause (env : EnumEnv) (cols : List Str) (q : Str) : Str :=
  match buildWhereCondList env cols (lowerS q) with
  | [] => str "1=1"
  | conds => List.intercalate (str " AND ") conds

/-- build_where_clause at the outer level: unknown tables filter nothing. -/
def buildWhereClauseFor (env : EnumEnv) (cat : Catalog) (q tname : Str) : Str :=
  if tname = [] then str "1=1"
  else
    match assocLookup cat (lowerS tname) with
    | none => str "1=1"
    | some info => buildWhereClause env info.columns q

end SdkUsage

namespace SdkUsage

/-- C6: whenever the lowercased question contains the phrase this month and
the table has a Month column, the predicate builder emits the fixed
month-prefix clause for the hardcoded literal 2025-08 — the same constant
for every question, not a value derived from any call-time date (the
builder takes no clock input at all). -/
theorem C6_this_month_fixed_reference (env : EnumEnv) (cols : List Str) (q : Str)
    (hq : hasSub (str "this month") (lowerS q) = true)
    (hc : (str "Month") ∈ cols) :
    (str "Month LIKE \x272025-08%\x27") ∈ buildWhereCondList env cols (lowerS q) := by
  unfold buildWhereCondList
  have hmem : (str "Month LIKE \x272025-08%\x27") ∈ thisMonthConds cols (lowerS q) := by
    unfold thisMonthConds
    rw [if_pos ⟨hq, hc⟩]
    simp
  simp only [List.mem_append]
  tauto

/-- The empty enum environment used for concrete runs. -/
def env0 : EnumEnv := { productEnum := [], trackEnum := [], httpEnum := [], osEnum := [] }

/-- Witness for C6 at a concrete question and column set. -/
theorem C6_this_month_fixed_reference_witness :
    (str "Month LIKE \x272025-08%\x27")
      ∈ buildWhereCondList env0 [str "Month"] (lowerS (str "show data this month")) :=
  C6_this_month_fixed_reference env0 [str "Month"] (str "show data this month")
    (by decide) (by decide)

/-- The nine clause categories of build_where_clause, in source order. -/
abbrev CatFun := EnumEnv → List Str → Str → List Str

def catFuns : List CatFun :=
  [fun _ cols ql => monthConds cols ql,
   fun _ cols ql => thisMonthConds cols ql,
   fun env cols ql => productConds env cols ql,
   fun env cols ql => trackConds env cols ql,
   fun _ cols ql => providerConds cols ql,
   fun _ cols ql => resourceConds cols ql,
   fun env cols ql => httpConds env cols ql,
   fun env cols ql => osConds env cols ql,
   fun _ cols ql => numericConds cols ql]

def catAt (i : Nat) : CatFun := catFuns.getD i (fun _ _ _ => [])

theorem buildWhere_eq_flatten (env : EnumEnv) (cols : List Str) (ql : Str) :
    buildWhereCondList env cols ql = (catFuns.map (fun f => f env cols ql)).flatten := by
  simp [buildWhereCondList, catFuns]

/-- C9 (amended): the predicate is assembled from nine independently
computed clause categories; for two questions whose category outputs agree
everywhere except category i, the two condition lists share identical
surrounding segments and differ only in category i's segment. Removing a
token therefore leaves every category it does not affect untouched — but it
may change several categories at once (see the counterexample). -/
theorem C9_predicate_frame_amended (env : EnumEnv) (cols : List Str) (i : Nat) (hi : i < 9)
    (ql1 ql2 : Str)
    (hothers : ∀ j, j < 9 → j ≠ i → catAt j env cols ql1 = catAt j env cols ql2) :
    ∃ pre post,
      buildWhereCondList env cols ql1 = pre ++ catAt i env cols ql1 ++ post
      ∧ buildWhereCondList env cols ql2 = pre ++ catAt i env cols ql2 ++ post := by
  have hlen : catFuns.length = 9 := rfl
  have hi9 : i < catFuns.length := by omega
  have hsplit : catFuns = catFuns.take i ++ catFuns[i] :: catFuns.drop (i + 1) := by
    conv_lhs => rw [← List.take_append_drop i catFuns]
    rw [List.drop_eq_getElem_cons hi9]
  have hcat : ∀ ql, catAt i env cols ql = catFuns[i] env cols ql := by
    intro ql
    unfold catAt
    rw [List.getD_eq_getElem catFuns _ hi9]
  have htake : (catFuns.take i).map (fun f => f env cols ql2)
      = (catFuns.take i).map (fun f => f env cols ql1) := by
    apply List.map_congr_left
    intro f hf
    rcases List.mem_iff_getElem.mp hf with ⟨j, hj, hfj⟩
    have hj2 : j < i := by
      have := hj
      rw [List.length_take] at this
      omega
    have hj9 : j < catFuns.length := by omega
    have hfj2 : catFuns[j] = f := by
      rw [← hfj]
      exact (List.getElem_take catFuns).symm
    have heq := hothers j (by omega) (by omega)
    unfold catAt at heq
    rw [List.getD_eq_getElem catFuns _ hj9, hfj2] at heq
    exact heq.symm
  have hdrop : (catFuns.drop (i + 1)).map (fun f => f env cols ql2)
      = (catFuns.drop (i + 1)).map (fun f => f env cols ql1) := by
    apply List.map_congr_left
    intro f hf
    rcases List.mem_iff_getElem.mp hf with ⟨j, hj, hfj⟩
    have hj2 : i + 1 + j < 9 := by
      have := hj
      rw [List.length_drop] at this
      omega
    have hj9 : i + 1 + j < catFuns.length := by omega
    have hfj2 : catFuns[i + 1 + j] = f := by
      rw [← hfj]
      exact (List.getElem_drop catFuns).symm
    have heq := hothers (i + 1 + j) (by omega) (by omega)
    unfold catAt at heq
    rw [List.getD_eq_getElem catFuns _ hj9, hfj2] at heq
    exact heq.symm
  refine ⟨((catFuns.take i).map (fun f => f env cols ql1)).flatten,
          ((catFuns.drop (i + 1)).map (fun f => f env cols ql1)).flatten, ?_, ?_⟩
  · rw [buildWhere_eq_flatten]
    conv_lhs => rw [hsplit]
    rw [List.map_append, List.map_cons, List.flatten_append, List.flatten_cons, hcat]
    simp [List.append_assoc]
  · rw [buildWhere_eq_flatten]
    conv_lhs => rw [hsplit]
    rw [List.map_append, List.map_cons, List.flatten_append, List.flatten_cons,
      htake, hdrop, hcat]
    simp [List.append_assoc]

/-- Column set with a Provider column only, for the C9 witness. -/
def provCols : List Str := [str "Provider"]

/-- Witness for C9 (amended): questions show sql usage and show usage agree
on every category except the provider category (index 4). -/
theorem C9_predicate_frame_amended_witness :
    ∃ pre post,
      buildWhereCondList env0 provCols (lowerS (str "show sql usage"))
        = pre ++ catAt 4 env0 provCols (lowerS (str "show sql usage")) ++ post
      ∧ buildWhereCondList env0 provCols (lowerS (str "show usage"))
        = pre ++ catAt 4 env0 provCols (lowerS (str "show usage")) ++ post :=
  C9_predicate_frame_amended env0 provCols 4 (by omega)
    (lowerS (str "show sql usage")) (lowerS (str "show usage"))
    (by intro j hj hne; interval_cases j <;> first | rfl | exact absurd rfl hne)

/-- Column set with Provider and Resource, for the C9 counterexample. -/
def provResCols : List Str := [str "Provider", str "Resource"]

/-- C9 counterexample to the claim as stated: in show sql usage the single
token sql triggers both a Provider clause and a Resource clause; removing
that one token removes two clauses, not exactly one — the run without it
keeps no clause at all. -/
theorem C9_counterexample :
    buildWhereCondList env0 provResCols (lowerS (str "show sql usage"))
      = [str "Provider LIKE \x27%sql%\x27", str "Resource LIKE \x27%sqlServers%\x27"]
    ∧ buildWhereCondList env0 provResCols (lowerS (str "show usage")) = [] := by
  exact ⟨by decide, by decide⟩

end SdkUsage

namespace SdkUsage

/-! ## Query assembler and structural re-parse
Embedding of the SQL text assembly shared by sqlQuery (src/mcp-sqlServer/
sqlQuery.py) and MCPTools.validate_query (src/mcp-sqlServer/src/mcp_tools.py):
SELECT [TOP n] cols FROM table [WHERE predicate] [ORDER BY col dir], with
WHERE omitted exactly when the predicate is the tautology 1=1.
The re-parser below follows the spec's words (split the rendered text back
into its SELECT/FROM/WHERE/ORDER structure) and is the second side of the
round-trip claim. -/

/-- Split on single spaces, keeping empty pieces. -/
def splitSp : Str → List Str
  | [] => [[]]
  | c :: rest =>
      if c = ' ' then [] :: splitSp rest
      else
        match splitSp rest with
        | [] => [[c]]
        | w :: ws => (c :: w) :: ws

theorem splitSp_ne_nil (l : Str) : splitSp l ≠ [] := by
  cases l with
  | nil => simp [splitSp]
  | cons c rest =>
    unfold splitSp
    by_cases hc : c = ' '
    · simp [hc]
    · rw [if_neg hc]
      cases splitSp rest <;> simp

theorem splitSp_append_space (a b : Str) :
    splitSp (a ++ ' ' :: b) = splitSp a ++ splitSp b := by
  induction a with
  | nil => simp [splitSp]
  | cons c a ih =>
    by_cases hc : c = ' '
    · simp only [List.cons_append, splitSp, hc, if_pos, List.append_eq]
      rw [ih]
    · simp only [List.cons_append, splitSp, hc, if_neg, not_false_iff, List.append_eq]
      rw [ih]
      rcases hs : splitSp a with _ | ⟨w, ws⟩
      · exact absurd hs (splitSp_ne_nil a)
      · simp

theorem splitSp_no_space (a : Str) (h : ∀ c ∈ a, c ≠ ' ') : splitSp a = [a] := by
  induction a with
  | nil => rfl
  | cons c a ih =>
    unfold splitSp
    rw [if_neg (h c (by simp))]
    rw [ih (fun x hx => h x (by simp [hx]))]

theorem splitSp_word_space (w : Str) (hw : ∀ c ∈ w, c ≠ ' ') (x : Str) :
    splitSp (w ++ ' ' :: x) = w :: splitSp x := by
  rw [splitSp_append_space, splitSp_no_space w hw]
  rfl

/-- Python ' '.join. -/
def joinSp : List Str → Str
  | [] => []
  | [p] => p
  | p :: q :: rest => p ++ ' ' :: joinSp (q :: rest)

theorem splitSp_joinSp (parts : List Str) (h : parts ≠ []) :
    splitSp (joinSp parts) = (parts.map splitSp).flatten := by
  induction parts with
  | nil => exact absurd rfl h
  | cons p rest ih =>
    cases rest with
    | nil => simp [joinSp]
    | cons q rs =>
      show splitSp (p ++ ' ' :: joinSp (q :: rs)) = _
      rw [splitSp_append_space, ih (by simp)]
      simp

/-- Python ', '.join. -/
def joinCommaSp : List Str → Str
  | [] => []
  | [c] => c
  | c :: q :: rest => c ++ ',' :: ' ' :: joinCommaSp (q :: rest)

/-- The space-split tokens of a comma-joined column list: every column but
the last carries a trailing comma. -/
def colTokens : List Str → List Str
  | [] => []
  | [c] => [c]
  | c :: q :: rest => (c ++ [',']) :: colTokens (q :: rest)

theorem splitSp_joinCommaSp (cols : List Str) (hne : cols ≠ [])
    (hc : ∀ c ∈ cols, ∀ ch ∈ c, ch ≠ ' ') :
    splitSp (joinCommaSp cols) = colTokens cols := by
  induction cols with
  | nil => exact absurd rfl hne
  | cons c rest ih =>
    cases rest with
    | nil =>
      show splitSp c = [c]
      exact splitSp_no_space c (hc c (by simp))
    | cons q rs =>
      show splitSp (c ++ ',' :: ' ' :: joinCommaSp (q :: rs)) = _
      have hshape : c ++ ',' :: ' ' :: joinCommaSp (q :: rs)
          = (c ++ [',']) ++ ' ' :: joinCommaSp (q :: rs) := by
        simp
      rw [hshape, splitSp_word_space (c ++ [','])
        (by
          intro ch hch
          rcases List.mem_append.mp hch with hch | hch
          · exact hc c (by simp) ch hch
          · simp only [List.mem_singleton] at hch
            subst hch
            decide)]
      rw [ih (by simp) (fun x hx => hc x (by simp [hx]))]
      rfl

end SdkUsage

namespace SdkUsage

/-- One decimal digit character. -/
def decDigit (d : Nat) : Char :=
  match d with
  | 0 => '0' | 1 => '1' | 2 => '2' | 3 => '3' | 4 => '4'
  | 5 => '5' | 6 => '6' | 7 => '7' | 8 => '8' | _ => '9'

theorem decDigit_ne_space (d : Nat) : decDigit d ≠ ' ' := by
  unfold decDigit
  split <;> decide

/-- Decimal rendering of a natural number (fuel-based). -/
def natDecimalFuel : Nat → Nat → Str
  | 0, _ => []
  | fuel + 1, n =>
      if n < 10 then [decDigit n]
      else natDecimalFuel fuel (n / 10) ++ [decDigit (n % 10)]

def natDecimal (n : Nat) : Str := natDecimalFuel (n + 1) n

theorem natDecimalFuel_no_space (fuel n : Nat) :
    ∀ c ∈ natDecimalFuel fuel n, c ≠ ' ' := by
  induction fuel generalizing n with
  | zero => intro c hc; simp [natDecimalFuel] at hc
  | succ f ih =>
    intro c hc
    unfold natDecimalFuel at hc
    by_cases hn : n < 10
    · rw [if_pos hn] at hc
      simp only [List.mem_singleton] at hc
      subst hc
      exact decDigit_ne_space n
    · rw [if_neg hn] at hc
      rcases List.mem_append.mp hc with hc | hc
      · exact ih (n / 10) c hc
      · simp only [List.mem_singleton] at hc
        subst hc
        exact decDigit_ne_space (n % 10)

theorem natDecimal_no_space (n : Nat) : ∀ c ∈ natDecimal n, c ≠ ' ' :=
  natDecimalFuel_no_space (n + 1) n

/-- A parsed intent: the components the translation pipeline hands the
assembler (table, ordered non-empty columns, predicate with tautology
default, optional TOP limit, optional ORDER BY column and direction). -/
structure ParsedIntent where
  table : Str
  columns : List Str
  predicate : Str
  limit : Option Nat
  order : Option (Str × Str)

/-- limit_clause: TOP n or empty. -/
def renderLimit : Option Nat → Str
  | some n => str "TOP " ++ natDecimal n
  | none => []

/-- order_clause: ORDER BY col dir or empty. -/
def renderOrder : Option (Str × Str) → Str
  | some (c, d) => str "ORDER BY " ++ c ++ str " " ++ d
  | none => []

/-- The SQL text assembly: sql_parts joined by single spaces, WHERE omitted
exactly when the predicate equals 1=1, limit and order included when their
rendered clause is non-empty. -/
def assembleSql (pi : ParsedIntent) : Str :=
  joinSp
    ([if renderLimit pi.limit = [] then str "SELECT " ++ joinCommaSp pi.columns
      else str "SELECT " ++ renderLimit pi.limit ++ str " " ++ joinCommaSp pi.columns,
      str "FROM " ++ pi.table]
     ++ (if pi.predicate ≠ str "1=1" then [str "WHERE " ++ pi.predicate] else [])
     ++ (if renderOrder pi.order ≠ [] then [renderOrder pi.order] else []))

/-- Remove one trailing comma from a rendered column token. -/
def stripComma (c : Str) : Str :=
  match c.reverse with
  | ',' :: t => t.reverse
  | _ => c

theorem stripComma_concat (c : Str) : stripComma (c ++ [',']) = c := by
  unfold stripComma
  rw [List.reverse_append]
  simp

theorem stripComma_no_comma (c : Str) (h : ',' ∉ c) : stripComma c = c := by
  unfold stripComma
  split
  · rename_i t heq
    exfalso
    apply h
    have : ',' ∈ c.reverse := by rw [heq]; simp
    simpa using this
  · rfl

/-- Skip a leading TOP n token pair. -/
def dropTop : List Str → List Str
  | t :: r => if t = str "TOP" then r.drop 1 else t :: r
  | [] => []

/-- Re-parse of a token stream, following the spec's description of the
SELECT [TOP n] cols FROM table [WHERE ...] [ORDER BY ...] structure:
the table name, the column list (trailing commas stripped), and whether a
WHERE section is present. -/
def parseTokens : List Str → Option (Str × List Str × Bool)
  | [] => none
  | sel :: rest =>
      if sel = str "SELECT" then
        match ((dropTop rest).dropWhile (fun tok => tok != str "FROM")).drop 1 with
        | tbl :: r2 =>
            some (tbl,
              ((dropTop rest).takeWhile (fun tok => tok != str "FROM")).map stripComma,
              r2.contains (str "WHERE"))
        | [] => none
      else none

/-- Re-parse of the rendered statement. -/
def parseSqlStructure (sql : Str) : Option (Str × List Str × Bool) :=
  parseTokens (splitSp sql)

theorem takeWhile_middle {p : List Char → Bool} {A : List Str} (hA : ∀ x ∈ A, p x = true)
    {b : Str} (hb : p b = false) (B : List Str) :
    (A ++ b :: B).takeWhile p = A ∧ (A ++ b :: B).dropWhile p = b :: B := by
  induction A with
  | nil => simp [List.takeWhile_cons, List.dropWhile_cons, hb]
  | cons a A ih =>
    have ha : p a = true := hA a (by simp)
    have hrest := ih (fun x hx => hA x (by simp [hx]))
    simp only [List.cons_append, List.takeWhile_cons, List.dropWhile_cons, ha, if_pos]
    exact ⟨by rw [hrest.1], by rw [hrest.2]⟩

end SdkUsage

namespace SdkUsage

/-- Well-formedness of one rendered column name: a non-empty identifier
without spaces or commas that is not itself a structural keyword. -/
def colWF (c : Str) : Prop :=
  c ≠ [] ∧ (∀ ch ∈ c, ch ≠ ' ') ∧ ',' ∉ c ∧ c ≠ str "FROM" ∧ c ≠ str "TOP"

theorem concat_comma_ne {c w : Str} (hw : w.getLast? ≠ some ',') : c ++ [','] ≠ w := by
  intro h
  exact hw (h ▸ List.getLast?_concat c)

def limitToks : Option Nat → List Str
  | some n => [str "TOP", natDecimal n]
  | none => []

def whereToks (p : Str) : List Str :=
  if p ≠ str "1=1" then str "WHERE" :: splitSp p else []

def orderToks : Option (Str × Str) → List Str
  | some (c, d) => [str "ORDER", str "BY", c, d]
  | none => []

theorem colTokens_ne_from (cols : List Str) (h : ∀ c ∈ cols, colWF c) :
    ∀ tok ∈ colTokens cols, (tok != str "FROM") = true := by
  induction cols with
  | nil => intro tok htok; simp [colTokens] at htok
  | cons c rest ih =>
    intro tok htok
    cases rest with
    | nil =>
      simp only [colTokens, List.mem_singleton] at htok
      subst htok
      exact bne_iff_ne.mpr (h tok (by simp)).2.2.2.1
    | cons q rs =>
      simp only [colTokens, List.mem_cons] at htok
      rcases htok with htok | htok
      · subst htok
        exact bne_iff_ne.mpr (concat_comma_ne (by decide))
      · exact ih (fun x hx => h x (by simp [hx])) tok htok

theorem colTokens_map_strip (cols : List Str) (h : ∀ c ∈ cols, ',' ∉ c) :
    (colTokens cols).map stripComma = cols := by
  induction cols with
  | nil => rfl
  | cons c rest ih =>
    cases rest with
    | nil =>
      simp only [colTokens, List.map_cons, List.map_nil]
      rw [stripComma_no_comma c (h c (by simp))]
    | cons q rs =>
      simp only [colTokens, List.map_cons]
      rw [stripComma_concat, ih (fun x hx => h x (by simp [hx]))]

theorem assemble_tokens (pi : ParsedIntent)
    (hcols : pi.columns ≠ [])
    (hcsp : ∀ c ∈ pi.columns, ∀ ch ∈ c, ch ≠ ' ')
    (htab : ∀ ch ∈ pi.table, ch ≠ ' ')
    (hord : ∀ cd, pi.order = some cd →
      (∀ ch ∈ cd.1, ch ≠ ' ') ∧ (∀ ch ∈ cd.2, ch ≠ ' ')) :
    splitSp (assembleSql pi)
      = str "SELECT" :: (limitToks pi.limit ++ colTokens pi.columns
          ++ str "FROM" :: pi.table :: (whereToks pi.predicate ++ orderToks pi.order)) := by
  have hsel : ∀ x : Str,
      splitSp ((if renderLimit pi.limit = [] then
          str "SELECT " ++ joinCommaSp pi.columns
        else str "SELECT " ++ renderLimit pi.limit ++ str " " ++ joinCommaSp pi.columns))
      = str "SELECT" :: (limitToks pi.limit ++ colTokens pi.columns) := by
    intro _
    cases hl : pi.limit with
    | none =>
      simp only [renderLimit, if_pos]
      have hshape : str "SELECT " ++ joinCommaSp pi.columns
          = str "SELECT" ++ ' ' :: joinCommaSp pi.columns := rfl
      rw [hshape, splitSp_word_space (str "SELECT") (by decide),
        splitSp_joinCommaSp pi.columns hcols hcsp]
      simp [limitToks]
    | some n =>
      have hne : renderLimit (some n) ≠ [] := by simp [renderLimit, str]
      rw [if_neg hne]
      have hshape : str "SELECT " ++ renderLimit (some n) ++ str " " ++ joinCommaSp pi.columns
          = str "SELECT" ++ ' ' :: (str "TOP"
              ++ ' ' :: (natDecimal n ++ ' ' :: joinCommaSp pi.columns)) := by
        simp only [renderLimit, List.append_assoc]
        rfl
      rw [hshape, splitSp_word_space (str "SELECT") (by decide)]
      have hshape2 : str "TOP" ++ ' ' :: (natDecimal n ++ ' ' :: joinCommaSp pi.columns)
          = (str "TOP" ++ ' ' :: natDecimal n) ++ ' ' :: joinCommaSp pi.columns := by
        simp
      rw [hshape2, splitSp_append_space, splitSp_word_space (str "TOP") (by decide),
        splitSp_no_space (natDecimal n) (natDecimal_no_space n),
        splitSp_joinCommaSp pi.columns hcols hcsp]
      simp [limitToks]
  have hfrom : splitSp (str "FROM " ++ pi.table) = [str "FROM", pi.table] := by
    have hshape : str "FROM " ++ pi.table = str "FROM" ++ ' ' :: pi.table := rfl
    rw [hshape, splitSp_word_space (str "FROM") (by decide), splitSp_no_space pi.table htab]
  have hwhere :
      ((if pi.predicate ≠ str "1=1" then [str "WHERE " ++ pi.predicate] else []).map
        splitSp).flatten = whereToks pi.predicate := by
    by_cases hp : pi.predicate ≠ str "1=1"
    · rw [if_pos hp]
      unfold whereToks
      rw [if_pos hp]
      have hshape : str "WHERE " ++ pi.predicate = str "WHERE" ++ ' ' :: pi.predicate := rfl
      simp only [List.map_cons, List.map_nil, List.flatten_cons, List.flatten_nil,
        List.append_nil]
      rw [hshape, splitSp_word_space (str "WHERE") (by decide)]
    · rw [if_neg hp]
      unfold whereToks
      rw [if_neg hp]
      rfl
  have horder :
      ((if renderOrder pi.order ≠ [] then [renderOrder pi.order] else []).map
        splitSp).flatten = orderToks pi.order := by
    cases ho : pi.order with
    | none => simp [renderOrder, orderToks]
    | some cd =>
      rcases cd with ⟨c, d⟩
      have hcd := hord (c, d) ho
      have hne : renderOrder (some (c, d)) ≠ [] := by simp [renderOrder, str]
      rw [if_pos hne]
      simp only [List.map_cons, List.map_nil, List.flatten_cons, List.flatten_nil,
        List.append_nil]
      have hro : renderOrder (some (c, d)) = str "ORDER BY " ++ c ++ str " " ++ d := rfl
      have hot : orderToks (some (c, d)) = [str "ORDER", str "BY", c, d] := rfl
      rw [hro, hot]
      have hshape : str "ORDER BY " ++ c ++ str " " ++ d
          = str "ORDER" ++ ' ' :: (str "BY" ++ ' ' :: (c ++ ' ' :: d)) := by
        simp only [List.append_assoc]
        rfl
      rw [hshape, splitSp_word_space (str "ORDER") (by decide)]
      have hshape2 : str "BY" ++ ' ' :: (c ++ ' ' :: d)
          = (str "BY" ++ ' ' :: c) ++ ' ' :: d := by simp
      rw [hshape2, splitSp_append_space, splitSp_word_space (str "BY") (by decide),
        splitSp_no_space c hcd.1, splitSp_no_space d hcd.2]
      rfl
  unfold assembleSql
  rw [splitSp_joinSp _ (by simp)]
  simp only [List.map_cons, List.map_append, List.flatten_cons, List.flatten_append]
  rw [hsel [], hfrom, hwhere, horder]
  simp [List.append_assoc]

end SdkUsage

namespace SdkUsage

theorem colTokens_ne_nil (cols : List Str) (h : cols ≠ []) : colTokens cols ≠ [] := by
  cases cols with
  | nil => exact absurd rfl h
  | cons c rest => cases rest <;> simp [colTokens]

theorem colTokens_head_ne_top (cols : List Str) (hwf : ∀ c ∈ cols, colWF c) :
    ∀ t0 ts, colTokens cols = t0 :: ts → t0 ≠ str "TOP" := by
  intro t0 ts heq
  cases cols with
  | nil => simp [colTokens] at heq
  | cons c rest =>
    cases rest with
    | nil =>
      simp only [colTokens, List.cons.injEq] at heq
      rw [← heq.1]
      exact (hwf c (by simp)).2.2.2.2
    | cons q rs =>
      simp only [colTokens, List.cons.injEq] at heq
      rw [← heq.1]
      exact concat_comma_ne (by decide)

theorem dropTop_tokens (pi : ParsedIntent) (hcols : pi.columns ≠ [])
    (hwf : ∀ c ∈ pi.columns, colWF c) (tail : List Str) :
    dropTop (limitToks pi.limit ++ colTokens pi.columns ++ str "FROM" :: tail)
      = colTokens pi.columns ++ str "FROM" :: tail := by
  cases hl : pi.limit with
  | some n =>
    simp only [limitToks, List.cons_append, List.nil_append, dropTop]
    simp
  | none =>
    simp only [limitToks, List.nil_append]
    rcases hct : colTokens pi.columns with _ | ⟨t0, ts⟩
    · exact absurd hct (colTokens_ne_nil pi.columns hcols)
    · have ht0 := colTokens_head_ne_top pi.columns hwf t0 ts hct
      simp only [List.cons_append, dropTop]
      rw [if_neg ht0]

/-- C8: assembling the query text from a ParsedIntent whose components are
identifier-shaped and re-parsing its SELECT/FROM/WHERE/ORDER structure
returns the same table, the same column list, and the tautology flag: the
WHERE section is present exactly when the predicate differs from 1=1. -/
theorem C8_assembler_round_trip (pi : ParsedIntent)
    (hcols : pi.columns ≠ [])
    (hwf : ∀ c ∈ pi.columns, colWF c)
    (htab : ∀ ch ∈ pi.table, ch ≠ ' ')
    (hord : ∀ cd, pi.order = some cd →
      (∀ ch ∈ cd.1, ch ≠ ' ') ∧ cd.1 ≠ str "WHERE"
        ∧ (∀ ch ∈ cd.2, ch ≠ ' ') ∧ cd.2 ≠ str "WHERE") :
    parseSqlStructure (assembleSql pi)
      = some (pi.table, pi.columns, pi.predicate != str "1=1") := by
  have hcsp : ∀ c ∈ pi.columns, ∀ ch ∈ c, ch ≠ ' ' := fun c hc => (hwf c hc).2.1
  have htok := assemble_tokens pi hcols hcsp htab
    (fun cd hcd => ⟨(hord cd hcd).1, (hord cd hcd).2.2.1⟩)
  unfold parseSqlStructure
  rw [htok]
  have hassoc :
      limitToks pi.limit ++ colTokens pi.columns
          ++ str "FROM" :: pi.table :: (whereToks pi.predicate ++ orderToks pi.order)
        = limitToks pi.limit ++ colTokens pi.columns
          ++ str "FROM" :: (pi.table :: (whereToks pi.predicate ++ orderToks pi.order)) := rfl
  have hdt := dropTop_tokens pi hcols hwf
    (pi.table :: (whereToks pi.predicate ++ orderToks pi.order))
  have hmid := takeWhile_middle (colTokens_ne_from pi.columns hwf)
    (show ((str "FROM" : Str) != str "FROM") = false by simp)
    (pi.table :: (whereToks pi.predicate ++ orderToks pi.order))
  have hcont : (whereToks pi.predicate ++ orderToks pi.order).contains (str "WHERE")
      = (pi.predicate != str "1=1") := by
    by_cases hp : pi.predicate = str "1=1"
    · have h1 : whereToks pi.predicate = [] := by
        unfold whereToks
        rw [if_neg (by simp [hp])]
      rw [h1, List.nil_append]
      have h2 : ¬ (str "WHERE") ∈ orderToks pi.order := by
        cases ho : pi.order with
        | none => simp [orderToks]
        | some cd =>
          rcases cd with ⟨c, d⟩
          have hcd := hord (c, d) ho
          intro hmem
          have hot : orderToks (some (c, d)) = [str "ORDER", str "BY", c, d] := rfl
          rw [hot] at hmem
          simp only [List.mem_cons, List.not_mem_nil, or_false] at hmem
          rcases hmem with h | h | h | h
          · exact absurd h (by decide)
          · exact absurd h (by decide)
          · exact hcd.2.1 h.symm
          · exact hcd.2.2.2 h.symm
      have h3 : (orderToks pi.order).contains (str "WHERE") = false := by
        cases hc : (orderToks pi.order).contains (str "WHERE")
        · rfl
        · exact absurd (List.mem_of_elem_eq_true (by simpa [List.contains] using hc)) h2
      rw [h3, hp]
      simp
    · have h1 : whereToks pi.predicate = str "WHERE" :: splitSp pi.predicate := by
        unfold whereToks
        rw [if_pos hp]
      have h4 : ((str "WHERE" :: splitSp pi.predicate) ++ orderToks pi.order).contains
          (str "WHERE") = true := by
        have hmem : (str "WHERE")
            ∈ (str "WHERE" :: splitSp pi.predicate) ++ orderToks pi.order := by simp
        simp only [List.contains]
        exact List.elem_eq_true_of_mem hmem
      rw [h1, h4]
      exact (bne_iff_ne.mpr hp).symm
  simp only [parseTokens, if_pos, hdt, hmid.1, hmid.2, List.drop_succ_cons, List.drop_zero]
  rw [colTokens_map_strip pi.columns (fun c hc => (hwf c hc).2.2.1), hcont]

/-- A concrete ParsedIntent exercising every assembler branch. -/
def demoIntent : ParsedIntent :=
  { table := str "ProductRequests",
    columns := [str "Month", str "Product", str "RequestCount"],
    predicate := str "Product = \x27Go-SDK\x27",
    limit := some 5,
    order := some (str "RequestCount", str "DESC") }

/-- Witness for C8 at a concrete intent. -/
theorem C8_assembler_round_trip_witness :
    parseSqlStructure (assembleSql demoIntent)
      = some (demoIntent.table, demoIntent.columns, demoIntent.predicate != str "1=1") :=
  C8_assembler_round_trip demoIntent (by decide)
    (by
      intro c hc
      simp only [demoIntent, List.mem_cons, List.not_mem_nil, or_false] at hc
      rcases hc with rfl | rfl | rfl <;>
        exact ⟨by decide, by decide, by decide, by decide, by decide⟩)
    (by decide)
    (by
      intro cd hcd
      rw [show demoIntent.order = some (str "RequestCount", str "DESC") from rfl] at hcd
      injection hcd with h
      subst h
      exact ⟨by decide, by decide, by decide, by decide⟩)

end SdkUsage
